import Mathlib

set_option autoImplicit false

/-!
Verification of the arrowmatrix read path: a shallow embedding of
`arrowmatrix/common.py`, `arrowmatrix/feather.py` and
`arrowmatrix/parquet.py`, together with proofs about the coordinate
index mapper (`_takers`), the row-gather engine (`_get_rc_by_takers`),
the slice materializer (`__getitem__`) and the persisted metadata
layout.
-/

namespace ArrowMatrix

/-- Cell values.  The source stores `float64` cells but the read path
performs no arithmetic on them (pure data movement), so an integer
stand-in is value-faithful for every claim considered here. -/
abbrev Value := Int

/-- Errors raised by the embedded code paths.  `valueError`, `keyError`,
`typeError` and `indexError` embed the built-in Python exceptions; the
last two constructors embed the error taxonomy of the package
(`MissingShapeError` is defined in the package's `exceptions` module;
`DimensionMismatchError` appears in the specification's taxonomy). -/
inductive PyErr
  | valueError
  | keyError
  | typeError
  | indexError
  | missingShapeError
  | dimensionMismatchError
  deriving DecidableEq, Repr

/-- numpy in-place addition `a += b` of 1-d integer arrays: the right
operand must broadcast to the left operand's shape, which never grows.
Equal lengths add pointwise; a length-1 right operand is broadcast
across the left; any other combination — including a length-1 left
operand with a longer right operand — raises `ValueError` (modelled as
`none`, the caller turns it into `PyErr.valueError`). -/
def npAdd (a b : List Int) : Option (List Int) :=
  if b.length = a.length then some (List.zipWith (· + ·) a b)
  else if b.length = 1 then some (a.map (fun x => x + b.headI))
  else none

/-- numpy multiplication of a 1-d integer array by a scalar. -/
def npMulScalar (a : List Int) (c : Int) : List Int :=
  a.map (fun x => x * c)

/-- `np.prod(shape[n:])`: the trailing product of the dimension sizes
from position `n` on (`1` when `n ≥ len(shape)`, as `np.prod` of an
empty slice). -/
def prodFrom (shape : List Nat) (n : Nat) : Nat :=
  (shape.drop n).prod

/-- The accumulation loop of `AbstractArrowMatrix._takers`
(common.py lines 314-319): `n` starts at 1 and is incremented before
each use, so the index for dimension `k ≥ 1` is scaled by
`np.prod(shape[k+1:])` when `k+1 < ndims` and added raw when
`k+1 ≥ ndims`.  A numpy broadcast failure raises `ValueError`. -/
def takersLoop (shape : List Nat) (ndims : Nat) :
    Nat → List Int → List (List Int) → Except PyErr (List Int)
  | _, takers, [] => .ok takers
  | n, takers, index :: rest =>
    let n' := n + 1
    let step? :=
      if ndims ≤ n' then npAdd takers index
      else npAdd takers (npMulScalar index ((prodFrom shape n' : Nat) : Int))
    match step? with
    | some t => takersLoop shape ndims n' t rest
    | none => .error .valueError

/-- `pd.MultiIndex.from_arrays` (used by `_get_rc_preprocess` when
`attach_index` is truthy): requires all arrays to have the same length,
raising `ValueError` otherwise; no broadcasting. -/
def multiIndexFromArrays (indexes : List (List Int)) :
    Except PyErr (List (List Int)) :=
  if indexes.all (fun idx => idx.length = (indexes.headD []).length)
  then .ok indexes
  else .error .valueError

/-- `AbstractArrowMatrix._takers` (common.py lines 308-320).  Scalars
have already been reshaped to length-1 arrays by `_get_rc_preprocess`
(`np.asarray(index).reshape(-1)`), so each supplied index is a list.
The dimension-count check raises a plain `ValueError`; with
`attach_index` truthy, a `pd.MultiIndex` is built from the raw index
arrays before the stride arithmetic runs. -/
def takersFn (shape : List Nat) (indexes : List (List Int))
    (attachIndex : Bool) : Except PyErr (List Int × Option (List (List Int))) :=
  if indexes.length ≠ shape.length then .error .valueError
  else do
    let idx ← if attachIndex then (multiIndexFromArrays indexes).map some
              else .ok none
    match indexes with
    | [] => .error .indexError
    | i0 :: rest => do
      let takers ← takersLoop shape shape.length 1
        (npMulScalar i0 ((prodFrom shape 1 : Nat) : Int)) rest
      .ok (takers, idx)

/-- Row-major offset formula as the specification states it (§3):
the contribution of dimensions `k, k+1, ...` to an offset, each index
scaled by the trailing product of the dimensions after it.  The full
spec offset of row `m` is `specOffset shape indexes 0 m`. -/
def specOffset (shape : List Nat) (indexes : List (List Int)) (k : Nat)
    (m : Nat) : Int :=
  match indexes with
  | [] => 0
  | idx :: rest =>
      idx.getD m 0 * ((prodFrom shape (k + 1) : Nat) : Int) +
        specOffset shape rest (k + 1) m

/-! ### The columnar table model -/

/-- A pyarrow table: named columns, equal-length by construction (the
backends build tables only from equal-length matrix columns). -/
abbrev Table := List (String × List Value)

/-- `table.num_rows`: the length of the first column (tables built by
the package always have at least one column). -/
def numRows (t : Table) : Nat :=
  (t.headD ("", [])).2.length

/-- Column lookup by name (first match), as pyarrow field resolution. -/
def lookupColumn (t : Table) (name : String) : Option (List Value) :=
  match t with
  | [] => none
  | c :: rest => if c.1 = name then some c.2 else lookupColumn rest name

/-- The column a name resolves to (meaningful when the name is present). -/
def colGet (t : Table) (name : String) : List Value :=
  (lookupColumn t name).getD []

/-- `Table.select(names)`: project the requested columns in the
requested order; a missing name raises `KeyError`.  Both backends'
`_get_arrow_table(names=...)` reduce to this projection
(feather.py line 41, parquet.py line 32). -/
def tableSelect (t : Table) (names : List String) : Except PyErr Table :=
  match names with
  | [] => .ok []
  | n :: rest =>
    match lookupColumn t n with
    | none => .error .keyError
    | some col => do
      let restSel ← tableSelect t rest
      .ok ((n, col) :: restSel)

/-- Positional gather of a list at a list of offsets, order-preserving
with duplicates allowed; an out-of-range offset raises `IndexError`
(this is both `Table.take` per column and `DataFrame.iloc` per row). -/
def takeList {α : Type} (xs : List α) (takers : List Nat) :
    Except PyErr (List α) :=
  match takers with
  | [] => .ok []
  | k :: rest =>
    match xs[k]? with
    | none => .error .indexError
    | some v => do
      let vs ← takeList xs rest
      .ok (v :: vs)

/-- `Table.take(takers)`: gather the given flat row offsets out of
every column. -/
def tableTake (t : Table) (takers : List Nat) : Except PyErr Table :=
  match t with
  | [] => .ok []
  | c :: rest => do
    let col ← takeList c.2 takers
    let restT ← tableTake rest takers
    .ok ((c.1, col) :: restT)

/-- A pandas DataFrame: column labels plus row-major rows. -/
structure Frame where
  names : List String
  rows : List (List Value)
  deriving DecidableEq, Repr

/-- `Table.to_pandas()`: columns of an arrow table are equal-length, so
row `i` holds the `i`-th entry of each column. -/
def toPandas (t : Table) : Frame :=
  ⟨t.map Prod.fst,
    (List.range (numRows t)).map (fun i => t.map (fun c => c.2.getD i 0))⟩

/-- `DataFrame.iloc[takers]`: positional row selection. -/
def frameIloc (f : Frame) (takers : List Nat) : Except PyErr Frame := do
  let rows ← takeList f.rows takers
  .ok ⟨f.names, rows⟩

/-- Column `j` of a DataFrame, as its values. -/
def frameColumn (f : Frame) (j : Nat) : List Value :=
  f.rows.map (fun r => r.getD j 0)

/-! ### The row-gather engine (`_get_rc_by_takers`) -/

/-- The single-name fast path of `_get_rc_by_takers` (common.py line
274): `_get_arrow_table(names=[names]).take(takers).column(0).to_pandas()`. -/
def getRcSingle (t : Table) (name : String) (takers : List Nat) :
    Except PyErr (List Value) := do
  let tbl ← tableSelect t [name]
  let tbl2 ← tableTake tbl takers
  .ok (tbl2.headD ("", [])).2

/-- Method 1 (common.py 280-282): full materialize, then positional
index: `table.to_pandas().iloc[takers]`. -/
def getRcMethod1 (t : Table) (names : List String) (takers : List Nat) :
    Except PyErr Frame := do
  let tbl ← tableSelect t names
  frameIloc (toPandas tbl) takers

/-- Method 2 (common.py 283-291): per-column loop with positional
index; `raw_result[:, n] = table.iloc[takers, 0]`, then
`pd.DataFrame(raw_result, columns=names)` (the float64 buffer is an
identity cast on the float64 matrix columns). -/
def getRcMethod2 (t : Table) (names : List String) (takers : List Nat) :
    Except PyErr Frame := do
  let cols ← names.mapM (fun name => do
    let tbl ← tableSelect t [name]
    let rows ← takeList (toPandas tbl).rows takers
    .ok (rows.map (fun r => r.getD 0 0)))
  .ok ⟨names,
    (List.range takers.length).map (fun i => cols.map (fun c => c.getD i 0))⟩

/-- Method 3 (common.py 292-300): per-column loop with take;
`raw_result[:, n] = table.take(takers).to_pandas().iloc[:, 0]`. -/
def getRcMethod3 (t : Table) (names : List String) (takers : List Nat) :
    Except PyErr Frame := do
  let cols ← names.mapM (fun name => do
    let tbl ← tableSelect t [name]
    let tbl2 ← tableTake tbl takers
    .ok ((toPandas tbl2).rows.map (fun r => r.getD 0 0)))
  .ok ⟨names,
    (List.range takers.length).map (fun i => cols.map (fun c => c.getD i 0))⟩

/-- Method 4 (common.py 301-302), the default: batched select-then-take,
`_get_arrow_table(names=names).take(takers).to_pandas()`. -/
def getRcMethod4 (t : Table) (names : List String) (takers : List Nat) :
    Except PyErr Frame := do
  let tbl ← tableSelect t names
  let tbl2 ← tableTake tbl takers
  .ok (toPandas tbl2)

/-- Names argument of `_get_rc_by_takers` / `__getitem__`: a single
string, a list, or (in `__getitem__`) a slice placeholder. -/
inductive NamesSel
  | str (s : String)
  | list (l : List String)
  | slice (start stop step : Option Nat)
  deriving DecidableEq, Repr

/-- Result of `_get_rc_by_takers`: a pandas Series for the single-name
fast path, a DataFrame otherwise. -/
inductive RcResult
  | series (values : List Value)
  | frame (f : Frame)
  deriving DecidableEq, Repr

/-- `AbstractArrowMatrix._get_rc_by_takers` (common.py 269-306):
dispatch on `isinstance(names, str)` and on the integer `method` flag
(an undefined flag raises `ValueError`; a slice reaching the select
raises `TypeError` in pyarrow). -/
def getRcByTakers (t : Table) (names : NamesSel) (takers : List Nat)
    (method : Nat) : Except PyErr RcResult :=
  match names with
  | .str s => (getRcSingle t s takers).map .series
  | .slice _ _ _ => .error .typeError
  | .list l =>
    if method = 1 then (getRcMethod1 t l takers).map .frame
    else if method = 2 then (getRcMethod2 t l takers).map .frame
    else if method = 3 then (getRcMethod3 t l takers).map .frame
    else if method = 4 then (getRcMethod4 t l takers).map .frame
    else .error .valueError

/-- Reference result of a gather: row `i` holds, for each requested
name in order, the value of that column at flat offset `takers[i]`.
All four strategies are proved equal to this. -/
def canonicalGather (t : Table) (names : List String) (takers : List Nat) :
    Frame :=
  ⟨names, takers.map (fun k => names.map (fun n => (colGet t n).getD k 0))⟩

/-! ### Ingest and `get_matrix` -/

/-- `arr[:].reshape(-1)` on a row-major 2-d source matrix: row-major
flattening (common.py line 52). -/
def flattenMatrix (m : List (List Value)) : List Value := m.flatten

/-- The data part of `omx_hdf5_2_to_arrow` (common.py 47-55): one
table column per named source matrix, each flattened row-major. -/
def ingestTable (mats : List (String × List (List Value))) : Table :=
  mats.map (fun p => (p.1, flattenMatrix p.2))

/-- `np.ndarray.reshape((R, C))` of a flat row-major buffer; raises
`ValueError` when the element count does not match. -/
def reshape2 (R C : Nat) (xs : List Value) :
    Except PyErr (List (List Value)) :=
  if xs.length = R * C then
    .ok ((List.range R).map (fun i => (xs.drop (i * C)).take C))
  else .error .valueError

/-- `FeatherMatrix._write_arrow_table` followed by re-opening the file
(feather.py 20, 43-72): the feather serialization round-trip is
performed by pyarrow, an external collaborator, and is the identity on
the logical table. -/
def featherWriteRead (t : Table) : Table := t

/-- `ParquetMatrix._write_arrow_table` followed by re-opening
(parquet.py 22, 34-36): the parquet round-trip, likewise an
external-collaborator identity on the logical table. -/
def parquetWriteRead (t : Table) : Table := t

/-- `FeatherMatrix._get_arrow_table` (feather.py 25-41): the whole
stored table when `names` is omitted, else `select(names)`. -/
def featherGetArrowTable (stored : Table) (names : Option (List String)) :
    Except PyErr Table :=
  match names with
  | none => .ok stored
  | some ns => tableSelect stored ns

/-- `ParquetMatrix._get_arrow_table` (parquet.py 31-32):
`parquet_file.read(columns=names)`, a column projection. -/
def parquetGetArrowTable (stored : Table) (names : Option (List String)) :
    Except PyErr Table :=
  match names with
  | none => .ok stored
  | some ns => tableSelect stored ns

/-- `AbstractArrowMatrix.get_matrix(name)` (common.py 248-266) over a
backend's `_get_arrow_table`:
`_get_arrow_table(names=[name]).to_pandas().to_numpy().reshape(shape)`. -/
def getMatrixF (getTable : Option (List String) → Except PyErr Table)
    (name : String) (R C : Nat) : Except PyErr (List (List Value)) := do
  let tbl ← getTable (some [name])
  reshape2 R C (toPandas tbl).rows.flatten

/-! ### The slice materializer (`__getitem__`) -/

/-- A Python `slice` object with optional start/stop/step (the
`__getitem__` path builds only non-negative components). -/
structure PySlice where
  start : Option Nat
  stop : Option Nat
  step : Option Nat
  deriving DecidableEq, Repr

/-- A dimension selector of `__getitem__`: an integer or a slice. -/
inductive DimSel
  | int (i : Nat)
  | slice (s : PySlice)
  deriving DecidableEq, Repr

/-- `_cap(a, b)` (common.py 410-415): `None` defers to the other
argument, otherwise the minimum. -/
def pyCap (a b : Option Nat) : Option Nat :=
  match a, b with
  | none, b => b
  | some a, none => some a
  | some a, some b => some (min a b)

/-- Python `x or d` on an optional number: `None` and `0` are falsy. -/
def pyOr (o : Option Nat) (d : Nat) : Nat :=
  match o with
  | none => d
  | some 0 => d
  | some v => v

/-- `np.arange(start, stop, step)` over naturals (positive step). -/
def npArange (start stop step : Nat) : List Nat :=
  if _h : 0 < step ∧ start < stop then
    start :: npArange (start + step) stop step
  else []
termination_by stop - start
decreasing_by omega

/-- `_slice_to_range(s, size)` (common.py 417-420) on a slice argument:
`np.arange(s.start or 0, _cap(s.stop, size), s.step or 1)`. -/
def sliceToRange (s : PySlice) (size : Nat) : List Nat :=
  match pyCap s.stop (some size) with
  | some stop => npArange (pyOr s.start 0) stop (pyOr s.step 1)
  | none => []

/-- `_take_array(slice1, slice2, shape)` (common.py 425-431): the grid
`range0.reshape(-1,1) * shape[1] + range1` of flat offsets, flattened
row-major, together with the grid's 2-d shape. -/
def takeArray (slice1 slice2 : PySlice) (shape0 shape1 : Nat) :
    List Nat × (Nat × Nat) :=
  let r0 := sliceToRange slice1 shape0
  let r1 := sliceToRange slice2 shape1
  ((r0.map (fun a => r1.map (fun b => a * shape1 + b))).flatten,
    (r0.length, r1.length))

/-- Result of `__getitem__`: a dense 2-d numeric array for a single
requested name, or a two-level-labelled long-format table otherwise. -/
inductive ItemResult
  | dense (rows : List (List Value))
  | long (idx1 idx2 : List Nat) (f : Frame)
  deriving DecidableEq, Repr

/-- `AbstractArrowMatrix.__getitem__` (common.py 381-408) for a 2-d
matrix accessed as `m[names, sel1, sel2]` (the tuple-padding loop has
already filled any missing trailing selector with `slice(None)`).
Single string names are wrapped in a list; `add_multiindex` is computed
by `len(names)` *before* the slice-selector branch, so a slice selector
raises `TypeError` there and the `list_matrices()` fallback is
unreachable.  The gather runs through `_get_rc_by_takers` with the
default `method=4`; with one name the result is densified by
`result.to_numpy().reshape(takers_shape)`, otherwise the broadcast
`range0`/`range1` grids are attached as a two-level row label. -/
def getitem (t : Table) (shape0 shape1 : Nat) (namesSel : NamesSel)
    (dim1 dim2 : DimSel) : Except PyErr ItemResult := do
  let names ← match namesSel with
    | .str s => .ok [s]
    | .list l => .ok l
    | .slice _ _ _ => (.error .typeError : Except PyErr (List String))
  let addMultiindex := names.length > 1
  let slice1 := match dim1 with
    | .int i => PySlice.mk (some i) (some (i + 1)) none
    | .slice s => s
  let slice2 := match dim2 with
    | .int i => PySlice.mk (some i) (some (i + 1)) none
    | .slice s => s
  let ts := takeArray slice1 slice2 shape0 shape1
  let result ← getRcByTakers t (.list names) ts.1 4
  match result with
  | .series _ => .error .typeError   -- unreachable: `names` is a list
  | .frame f =>
    if addMultiindex then
      let r0 := sliceToRange slice1 shape0
      let r1 := sliceToRange slice2 shape1
      let idx1 := (r0.map (fun a => r1.map (fun _ => a))).flatten
      let idx2 := (r0.map (fun _ => r1)).flatten
      .ok (.long idx1 idx2 f)
    else do
      let dense ← reshape2 ts.2.1 ts.2.2 f.rows.flatten
      .ok (.dense dense)

/-! ### Persisted schema metadata (`OMX_VERSION`, `SHAPE`) -/

/-- Decimal rendering helper: digits of `n` in order, by repeated
division (the `fuel` argument, always called with `fuel ≥ n`, only
makes the recursion structural). -/
def renderNatAux : Nat → Nat → List Char
  | 0, _ => []
  | _, 0 => []
  | fuel + 1, n + 1 =>
    renderNatAux fuel ((n + 1) / 10) ++ [Char.ofNat ((n + 1) % 10 + 48)]

/-- Python `str(n)` for a natural number. -/
def renderNat (n : Nat) : List Char :=
  if n = 0 then ['0'] else renderNatAux (n + 1) n

/-- The comma-separated interior of Python `str` of a tuple with at
least two elements. -/
def renderTupleItems : List Nat → List Char
  | [] => []
  | [d] => renderNat d
  | d :: rest => renderNat d ++ ',' :: ' ' :: renderTupleItems rest

/-- Python `str(shape)` for a tuple of naturals: `"(25, 25)"`,
`"(25,)"` for a singleton, `"()"` when empty. -/
def pyStrTuple (shape : List Nat) : List Char :=
  match shape with
  | [d] => '(' :: (renderNat d ++ [',', ')'])
  | _ => '(' :: (renderTupleItems shape ++ [')'])

/-- Parse a leading run of decimal digits, returning the value and the
unconsumed input. -/
def parseNatChars (cs : List Char) : Option (Nat × List Char) :=
  if (cs.takeWhile Char.isDigit).isEmpty then none
  else some
    (Nat.ofDigits 10
      (((cs.takeWhile Char.isDigit).map (fun c => c.toNat - 48)).reverse),
    cs.dropWhile Char.isDigit)

/-- Parse the interior of a tuple literal after the opening parenthesis
(`fuel`, always called with the input length, only makes the recursion
structural: every item consumes at least one character). -/
def parseItemsFuel : Nat → List Char → Option (List Nat)
  | 0, _ => none
  | fuel + 1, cs =>
    match parseNatChars cs with
    | none => none
    | some (n, rest) =>
      match rest with
      | [')'] => some [n]
      | [',', ')'] => some [n]
      | ',' :: ' ' :: rest2 => (parseItemsFuel fuel rest2).map (fun l => n :: l)
      | _ => none

/-- `ast.literal_eval` restricted to the tuple-of-integer literals that
`str(shape)` produces (the shape strings actually persisted). -/
def literalEvalTuple (cs : List Char) : Option (List Nat) :=
  match cs with
  | '(' :: rest => if rest = [')'] then some [] else parseItemsFuel rest.length rest
  | _ => none

/-- Schema metadata: an ordered key/value mapping, as the
`schema.metadata` dict. -/
abbrev Metadata := List (String × List Char)

/-- Dict lookup `metadata[key]` (first match). -/
def metaGet (m : Metadata) (key : String) : Option (List Char) :=
  match m with
  | [] => none
  | kv :: rest => if kv.1 = key then some kv.2 else metaGet rest key

/-- Dict assignment `metadata[key] = v`: replace in place or append. -/
def metaSet (m : Metadata) (key : String) (v : List Char) : Metadata :=
  match m with
  | [] => [(key, v)]
  | kv :: rest =>
    if kv.1 = key then (key, v) :: rest else kv :: metaSet rest key v

/-- `OMX_VERSION = b'0.3.0a'` (common.py line 14). -/
def omxVersionTag : List Char := ['0', '.', '3', '.', '0', 'a']

/-- The metadata step of `omx_hdf5_2_to_arrow` (common.py 56-60): take
the table's schema metadata and set the two format entries,
`metadata[b'OMX_VERSION'] = OMX_VERSION` and
`metadata[b'SHAPE'] = str(shape).encode()`. -/
def ingestMetadata (m0 : Metadata) (shape : List Nat) : Metadata :=
  metaSet (metaSet m0 "OMX_VERSION" omxVersionTag) "SHAPE" (pyStrTuple shape)

/-- The metadata recovery of `FeatherMatrix.__init__` (feather.py
13-19): `schema.metadata[b'OMX_VERSION'].decode()` then
`ast.literal_eval(schema.metadata[b'SHAPE'].decode())`; a missing key
raises `KeyError`, an unparseable shape raises `ValueError`. -/
def featherOpenMeta (m : Metadata) : Except PyErr (List Nat × List Char) := do
  let v ← match metaGet m "OMX_VERSION" with
    | some v => .ok v
    | none => (.error .keyError : Except PyErr (List Char))
  let s ← match metaGet m "SHAPE" with
    | some s => .ok s
    | none => (.error .keyError : Except PyErr (List Char))
  match literalEvalTuple s with
  | some shape => .ok (shape, v)
  | none => .error .valueError

/-- The metadata recovery of `ParquetMatrix.__init__` (parquet.py
13-29): the `shape` parameter is accepted but immediately shadowed by
the metadata read (`SHAPE` first, then `OMX_VERSION`, each a `KeyError`
when absent); the returned flag is the `prod(shape) != num_rows`
warning condition. -/
def parquetOpenMeta (shapeArg : Option (List Nat)) (m : Metadata)
    (nrows : Nat) : Except PyErr (List Nat × List Char × Bool) := do
  let _ := shapeArg
  let s ← match metaGet m "SHAPE" with
    | some s => .ok s
    | none => (.error .keyError : Except PyErr (List Char))
  let shape ← match literalEvalTuple s with
    | some sh => .ok sh
    | none => (.error .valueError : Except PyErr (List Nat))
  let v ← match metaGet m "OMX_VERSION" with
    | some v => .ok v
    | none => (.error .keyError : Except PyErr (List Char))
  .ok (shape, v, decide (shape.prod ≠ nrows))

/-! ### Helper lemmas on the numpy operations -/

theorem getD_zipWith_add : ∀ (a b : List Int) (m : Nat), m < a.length →
    m < b.length →
    (List.zipWith (· + ·) a b).getD m 0 = a.getD m 0 + b.getD m 0 := by
  intro a
  induction a with
  | nil => intro b m h; exact absurd h (Nat.not_lt_zero m)
  | cons x xs ih =>
    intro b m ha hb
    cases b with
    | nil => exact absurd hb (Nat.not_lt_zero m)
    | cons y ys =>
      cases m with
      | zero => rfl
      | succ m =>
        simp only [List.zipWith_cons_cons, List.getD_cons_succ]
        exact ih ys m (Nat.lt_of_succ_lt_succ ha) (Nat.lt_of_succ_lt_succ hb)

theorem getD_map_mul (a : List Int) (c : Int) : ∀ (m : Nat), m < a.length →
    (npMulScalar a c).getD m 0 = a.getD m 0 * c := by
  induction a with
  | nil => intro m h; exact absurd h (Nat.not_lt_zero m)
  | cons x xs ih =>
    intro m hm
    cases m with
    | zero => rfl
    | succ m =>
      simp only [npMulScalar, List.map_cons, List.getD_cons_succ]
      exact ih m (Nat.lt_of_succ_lt_succ hm)

theorem npMulScalar_length (a : List Int) (c : Int) :
    (npMulScalar a c).length = a.length := by
  simp [npMulScalar]

theorem npAdd_of_length_eq (a b : List Int) (h : a.length = b.length) :
    npAdd a b = some (List.zipWith (· + ·) a b) := by
  simp [npAdd, h]

theorem prodFrom_of_le (shape : List Nat) (n : Nat)
    (h : shape.length ≤ n) : prodFrom shape n = 1 := by
  simp [prodFrom, List.drop_eq_nil_of_le h]

theorem npMulScalar_one (a : List Int) : npMulScalar a 1 = a := by
  simp [npMulScalar]

/-! ### C1: the coordinate mapper computes row-major offsets -/

theorem takersLoop_spec (shape : List Nat) (L : Nat) :
    ∀ (rest : List (List Int)) (n : Nat) (takers : List Int),
    takers.length = L → (∀ idx ∈ rest, idx.length = L) →
    ∃ res, takersLoop shape shape.length n takers rest = .ok res ∧
      res.length = L ∧
      ∀ m, m < L → res.getD m 0 = takers.getD m 0 + specOffset shape rest n m := by
  intro rest
  induction rest with
  | nil =>
    intro n takers hlen _
    exact ⟨takers, rfl, hlen, fun m _ => by simp [specOffset]⟩
  | cons index rest ih =>
    intro n takers hlen hidx
    have hIlen : index.length = L := hidx index (by simp)
    have hrest : ∀ idx ∈ rest, idx.length = L := fun idx h => hidx idx (by simp [h])
    -- both branches of the loop body add `index` scaled by the trailing
    -- product (the raw branch only fires when that product is 1)
    have hstep : (if shape.length ≤ n + 1 then npAdd takers index
        else npAdd takers (npMulScalar index ((prodFrom shape (n+1) : Nat) : Int)))
        = some (List.zipWith (· + ·) takers
            (npMulScalar index ((prodFrom shape (n+1) : Nat) : Int))) := by
      by_cases hc : shape.length ≤ n + 1
      · rw [if_pos hc, prodFrom_of_le shape (n+1) hc]
        simp only [Nat.cast_one, npMulScalar_one]
        exact npAdd_of_length_eq takers index (hlen.trans hIlen.symm)
      · rw [if_neg hc]
        exact npAdd_of_length_eq _ _
          (by rw [hlen, npMulScalar_length, hIlen])
    have hnext :
        takersLoop shape shape.length n takers (index :: rest)
          = takersLoop shape shape.length (n+1)
              (List.zipWith (· + ·) takers
                (npMulScalar index ((prodFrom shape (n+1) : Nat) : Int))) rest := by
      simp only [takersLoop]
      rw [hstep]
    set t := List.zipWith (· + ·) takers
      (npMulScalar index ((prodFrom shape (n+1) : Nat) : Int)) with ht
    have htlen : t.length = L := by
      rw [ht, List.length_zipWith, npMulScalar_length, hlen, hIlen,
        Nat.min_self]
    obtain ⟨res, h1, h2, h3⟩ := ih (n+1) t htlen hrest
    refine ⟨res, by rw [hnext]; exact h1, h2, ?_⟩
    intro m hm
    have hgt : t.getD m 0 = takers.getD m 0 +
        index.getD m 0 * ((prodFrom shape (n+1) : Nat) : Int) := by
      rw [ht, getD_zipWith_add takers _ m (by omega)
        (by rw [npMulScalar_length]; omega),
        getD_map_mul index _ m (by omega)]
    rw [h3 m hm, hgt, specOffset]
    ring

/-- C1: for every matrix shape and every supply of per-dimension index
arrays of a common length, `_takers` returns the flat row offsets of
row-major stride arithmetic: offset `m` is the sum over dimensions `k`
of `indexes[k][m] * prod(shape[k+1:])`, the last dimension contributing
its raw index; in particular for a 2-d shape `(R, C)` the offset of
coordinate `(i, j)` is `i*C + j`. -/
theorem takers_row_major (shape : List Nat) (indexes : List (List Int))
    (L : Nat) (hne : indexes ≠ [])
    (hdim : indexes.length = shape.length)
    (hlen : ∀ idx ∈ indexes, idx.length = L) :
    ∃ takers, takersFn shape indexes false = .ok (takers, none) ∧
      takers.length = L ∧
      (∀ m, m < L → takers.getD m 0 = specOffset shape indexes 0 m) ∧
      (∀ R C i j, shape = [R, C] → indexes = [i, j] → ∀ m, m < L →
        takers.getD m 0 = i.getD m 0 * (C : Int) + j.getD m 0) := by
  cases indexes with
  | nil => exact absurd rfl hne
  | cons i0 rest =>
    have h0 : i0.length = L := hlen i0 (by simp)
    have hrest : ∀ idx ∈ rest, idx.length = L :=
      fun idx h => hlen idx (by simp [h])
    obtain ⟨res, h1, h2, h3⟩ := takersLoop_spec shape L rest 1
      (npMulScalar i0 ((prodFrom shape 1 : Nat) : Int))
      (by rw [npMulScalar_length, h0]) hrest
    have hres : ∀ m, m < L →
        res.getD m 0 = specOffset shape (i0 :: rest) 0 m := by
      intro m hm
      rw [h3 m hm, getD_map_mul i0 _ m (by omega), specOffset]
    refine ⟨res, ?_, h2, hres, ?_⟩
    · simp [takersFn, hdim, Except.bind, bind, h1]
    · rintro R C i j hs hi m hm
      have := hres m hm
      rw [hi] at this
      rw [this, hs]
      simp [specOffset, prodFrom]

/-- Witness for C1 at shape `(5, 5)` and coordinates `(1,3)`, `(2,4)`. -/
theorem takers_row_major_witness :
    ∃ takers, takersFn [5, 5] [[1, 2], [3, 4]] false = .ok (takers, none) ∧
      takers.length = 2 ∧
      (∀ m, m < 2 → takers.getD m 0 = specOffset [5, 5] [[1, 2], [3, 4]] 0 m) ∧
      (∀ (R C : Nat) (i j : List Int), [5, 5] = [R, C] →
        [[1, 2], [3, 4]] = [i, j] → ∀ m, m < 2 →
        takers.getD m 0 = i.getD m 0 * (C : Int) + j.getD m 0) :=
  takers_row_major [5, 5] [[1, 2], [3, 4]] 2 (by decide) (by decide)
    (by decide)

/-! ### C4: dimension-count mismatch raises a plain `ValueError` -/

/-- C4 counterexample: calling the coordinate mapper with 1 index
argument on a 2-d matrix fails with `ValueError`, not with
`DimensionMismatchError` as the claim states (`_takers` raises
`ValueError(f'number of indexes ... does not match ndims ...')`). -/
theorem takers_dim_mismatch_cex :
    takersFn [5, 5] [[0]] false = Except.error PyErr.valueError ∧
      takersFn [5, 5] [[0]] false ≠ Except.error PyErr.dimensionMismatchError := by
  constructor
  · rfl
  · intro h
    rw [(rfl : takersFn [5, 5] [[0]] false = Except.error PyErr.valueError)] at h
    exact PyErr.noConfusion (Except.error.inj h)

/-- C4 amended: calling the coordinate mapper with a number of
per-dimension index arguments different from the matrix's `ndims`
always fails, with a plain `ValueError` rather than a dedicated
`DimensionMismatchError`. -/
theorem takers_dim_mismatch_value_error (shape : List Nat)
    (indexes : List (List Int)) (attachIndex : Bool)
    (h : indexes.length ≠ shape.length) :
    takersFn shape indexes attachIndex = Except.error PyErr.valueError := by
  simp [takersFn, h]

/-- Witness for C4 amended: 1 index argument against a 2-d shape. -/
theorem takers_dim_mismatch_value_error_witness :
    takersFn [5, 5] [[0]] true = Except.error PyErr.valueError :=
  takers_dim_mismatch_value_error [5, 5] [[0]] true (by decide)

/-! ### C9: length-1 index arrays are broadcast, not rejected -/

/-- C9 counterexample: on a `(4, 4)` matrix, index arrays `[0, 1, 2]`
and `[2]` have unequal lengths, yet the coordinate mapper succeeds:
`takers += index` broadcasts the length-1 right operand across the
accumulator and returns offsets `[2, 6, 10]` — the claim says every
unequal-length supply fails at the arithmetic step and that values are
never broadcast. -/
theorem takers_broadcast_cex :
    takersFn [4, 4] [[0, 1, 2], [2]] false =
      Except.ok ([2, 6, 10], none) := rfl

/-- C9 amended: for a 2-d matrix, per-dimension index arrays of unequal
lengths fail with `ValueError` unless the second array has length 1
(with an attached index the failure is at the label-building step,
otherwise at the in-place `takers += index` step, whose accumulator
never grows); a length-1 second array is instead broadcast across the
accumulator. -/
theorem takers_unequal_lengths_error (R C : Nat) (a b : List Int)
    (attachIndex : Bool) (hne : a.length ≠ b.length)
    (hb : b.length ≠ 1) :
    takersFn [R, C] [a, b] attachIndex = Except.error PyErr.valueError := by
  cases attachIndex with
  | false =>
    have hadd : npAdd (npMulScalar a ((prodFrom [R, C] 1 : Nat) : Int)) b = none := by
      simp only [npAdd, npMulScalar_length]
      rw [if_neg (Ne.symm hne), if_neg hb]
    simp [takersFn, takersLoop, Except.bind, bind, hadd]
  | true =>
    have hmi : multiIndexFromArrays [a, b] = Except.error PyErr.valueError := by
      simp [multiIndexFromArrays, Ne.symm hne]
    simp [takersFn, Except.bind, bind, hmi, Except.map]

/-- Witness for C9 amended: lengths 1 and 3 on a `(4, 4)` matrix (the
length-1 accumulator cannot grow to receive the longer index). -/
theorem takers_unequal_lengths_error_witness :
    takersFn [4, 4] [[2], [0, 1, 2]] false =
      Except.error PyErr.valueError :=
  takers_unequal_lengths_error 4 4 [2] [0, 1, 2] false (by decide)
    (by decide)

/-! ### General list lemmas -/

theorem getD_map_of_lt {α β : Type} (g : α → β) (d : β) (d' : α) :
    ∀ (l : List α) (i : Nat), i < l.length →
    (l.map g).getD i d = g (l.getD i d') := by
  intro l
  induction l with
  | nil => intro i h; exact absurd h (Nat.not_lt_zero i)
  | cons x xs ih =>
    intro i hi
    cases i with
    | zero => rfl
    | succ i =>
      simp only [List.map_cons, List.getD_cons_succ]
      exact ih i (Nat.lt_of_succ_lt_succ hi)

theorem range_map_getD {α β : Type} (d : α) (g : α → β) :
    ∀ (l : List α),
    (List.range l.length).map (fun i => g (l.getD i d)) = l.map g := by
  intro l
  induction l with
  | nil => rfl
  | cons x xs ih =>
    rw [List.length_cons, List.range_succ_eq_map, List.map_cons,
      List.map_map]
    simp only [List.getD_cons_zero, Function.comp_def, Nat.succ_eq_add_one,
      List.getD_cons_succ]
    rw [List.map_cons]
    exact congrArg (g x :: ·) ih

theorem lookupColumn_mem {t : Table} {n : String} {col : List Value} :
    lookupColumn t n = some col → ∃ c, c ∈ t ∧ c.2 = col := by
  induction t with
  | nil => intro h; exact absurd h (by simp [lookupColumn])
  | cons c rest ih =>
    intro h
    rw [lookupColumn] at h
    by_cases hc : c.1 = n
    · rw [if_pos hc] at h
      exact ⟨c, by simp, Option.some.inj h⟩
    · rw [if_neg hc] at h
      obtain ⟨c', hmem, hcol⟩ := ih h
      exact ⟨c', by simp [hmem], hcol⟩

theorem colGet_length {t : Table} {n : String}
    (hrect : ∀ c ∈ t, c.2.length = numRows t)
    (hpres : (lookupColumn t n).isSome) :
    (colGet t n).length = numRows t := by
  obtain ⟨col, hcol⟩ := Option.isSome_iff_exists.mp hpres
  obtain ⟨c, hmem, hc⟩ := lookupColumn_mem hcol
  rw [colGet, hcol, Option.getD_some, ← hc]
  exact hrect c hmem

theorem tableSelect_of_present (t : Table) :
    ∀ (names : List String), (∀ n ∈ names, (lookupColumn t n).isSome) →
    tableSelect t names = .ok (names.map (fun n => (n, colGet t n))) := by
  intro names
  induction names with
  | nil => intro _; rfl
  | cons n rest ih =>
    intro h
    obtain ⟨col, hcol⟩ := Option.isSome_iff_exists.mp (h n (by simp))
    rw [tableSelect, hcol, ih (fun x hx => h x (by simp [hx]))]
    simp [Except.bind, bind, colGet, hcol]

theorem takeList_of_lt {α : Type} (d : α) (xs : List α) :
    ∀ (takers : List Nat), (∀ k ∈ takers, k < xs.length) →
    takeList xs takers = .ok (takers.map (fun k => xs.getD k d)) := by
  intro takers
  induction takers with
  | nil => intro _; rfl
  | cons k rest ih =>
    intro h
    have hk : k < xs.length := h k (by simp)
    rw [takeList, List.getElem?_eq_getElem hk,
      ih (fun x hx => h x (by simp [hx]))]
    simp [Except.bind, bind, List.getD_eq_getElem?_getD,
      List.getElem?_eq_getElem hk]

theorem tableTake_of_lt (takers : List Nat) :
    ∀ (tbl : Table), (∀ c ∈ tbl, ∀ k ∈ takers, k < c.2.length) →
    tableTake tbl takers =
      .ok (tbl.map (fun c => (c.1, takers.map (fun k => c.2.getD k 0)))) := by
  intro tbl
  induction tbl with
  | nil => intro _; rfl
  | cons c rest ih =>
    intro h
    rw [tableTake, takeList_of_lt 0 c.2 takers (h c (by simp)),
      ih (fun c' hc' => h c' (by simp [hc']))]
    simp [Except.bind, bind]

/-! ### C3: the four gather strategies and the fast path agree -/

theorem mapM_ok_of_items {α β : Type} (f : α → Except PyErr β) (g : α → β) :
    ∀ (l : List α), (∀ x ∈ l, f x = .ok (g x)) →
    l.mapM f = .ok (l.map g) := by
  intro l
  induction l with
  | nil => intro _; rfl
  | cons x xs ih =>
    intro h
    rw [List.mapM_cons, h x (by simp), ih (fun y hy => h y (by simp [hy]))]
    rfl

theorem getD_range_of_lt (N k : Nat) (h : k < N) :
    (List.range N).getD k 0 = k := by
  rw [List.getD_eq_getElem?_getD, List.getElem?_range h, Option.getD_some]

/-- Rows built positionally over a per-name column list coincide with the
canonical row-major gather. -/
theorem rangeRows_eq (t : Table) (names : List String) (takers : List Nat) :
    (List.range takers.length).map (fun i =>
      (names.map (fun n => takers.map (fun k => (colGet t n).getD k 0))).map
        (fun c => c.getD i 0))
    = takers.map (fun k => names.map (fun n => (colGet t n).getD k 0)) := by
  have hrow : ∀ i ∈ List.range takers.length,
      ((names.map (fun n => takers.map (fun k => (colGet t n).getD k 0))).map
        (fun c => c.getD i 0))
      = names.map (fun n => (colGet t n).getD (takers.getD i 0) 0) := by
    intro i hi
    rw [List.map_map]
    refine List.map_congr_left (fun n _ => ?_)
    simp only [Function.comp_def]
    exact getD_map_of_lt _ 0 0 takers i (by simpa using List.mem_range.mp hi)
  rw [List.map_congr_left hrow]
  exact range_map_getD 0
    (fun k => names.map (fun n => (colGet t n).getD k 0)) takers

theorem getRcMethod4_canonical (t : Table) (names : List String)
    (takers : List Nat) (hn : names ≠ [])
    (hpres : ∀ n ∈ names, (lookupColumn t n).isSome)
    (hrect : ∀ c ∈ t, c.2.length = numRows t)
    (htak : ∀ k ∈ takers, k < numRows t) :
    getRcMethod4 t names takers = .ok (canonicalGather t names takers) := by
  have hsel := tableSelect_of_present t names hpres
  have hlen : ∀ c ∈ names.map (fun n => (n, colGet t n)),
      ∀ k ∈ takers, k < c.2.length := by
    intro c hc k hk
    obtain ⟨n, hn', rfl⟩ := List.mem_map.mp hc
    rw [colGet_length hrect (hpres n hn')]
    exact htak k hk
  have htake := tableTake_of_lt takers _ hlen
  rw [getRcMethod4, hsel]
  simp only [Except.bind, bind]
  rw [htake, List.map_map]
  have hmap : (names.map
      ((fun c => (c.1, takers.map fun k => c.2.getD k 0)) ∘
        (fun n => (n, colGet t n))))
      = names.map (fun n => (n, takers.map fun k => (colGet t n).getD k 0)) := by
    simp [Function.comp_def]
  rw [hmap]
  cases names with
  | nil => exact absurd rfl hn
  | cons n0 rest =>
    have hnum : numRows ((n0 :: rest).map
        (fun n => (n, takers.map fun k => (colGet t n).getD k 0)))
        = takers.length := by
      simp [numRows]
    simp only [toPandas, canonicalGather]
    rw [hnum]
    simp only [Except.ok.injEq, Frame.mk.injEq]
    refine ⟨by simp [Function.comp_def], ?_⟩
    have hrow : ∀ i ∈ List.range takers.length,
        (((n0 :: rest).map
          (fun n => (n, takers.map fun k => (colGet t n).getD k 0))).map
            (fun c => c.2.getD i 0))
        = (n0 :: rest).map (fun n => (colGet t n).getD (takers.getD i 0) 0) := by
      intro i hi
      rw [List.map_map]
      refine List.map_congr_left (fun n _ => ?_)
      simp only [Function.comp_def]
      exact getD_map_of_lt _ 0 0 takers i
        (by simpa using List.mem_range.mp hi)
    rw [List.map_congr_left hrow]
    exact range_map_getD 0
      (fun k => (n0 :: rest).map (fun n => (colGet t n).getD k 0)) takers

theorem getRcMethod1_canonical (t : Table) (names : List String)
    (takers : List Nat) (hn : names ≠ [])
    (hpres : ∀ n ∈ names, (lookupColumn t n).isSome)
    (hrect : ∀ c ∈ t, c.2.length = numRows t)
    (htak : ∀ k ∈ takers, k < numRows t) :
    getRcMethod1 t names takers = .ok (canonicalGather t names takers) := by
  have hsel := tableSelect_of_present t names hpres
  rw [getRcMethod1, hsel]
  simp only [Except.bind, bind]
  cases names with
  | nil => exact absurd rfl hn
  | cons n0 rest =>
    have hnumsel : numRows ((n0 :: rest).map (fun n => (n, colGet t n)))
        = numRows t := by
      simp [numRows, colGet_length hrect (hpres n0 (by simp))]
    rw [frameIloc, toPandas, hnumsel]
    have hrows : ∀ k ∈ takers,
        k < ((List.range (numRows t)).map
          (fun i => ((n0 :: rest).map (fun n => (n, colGet t n))).map
            (fun c => c.2.getD i 0))).length := by
      intro k hk
      simpa using htak k hk
    rw [takeList_of_lt [] _ takers hrows]
    simp only [Except.bind, bind, Except.ok.injEq]
    rw [canonicalGather, Frame.mk.injEq]
    refine ⟨by simp [Function.comp_def], ?_⟩
    refine List.map_congr_left (fun k hk => ?_)
    have hkN : k < numRows t := htak k hk
    rw [getD_map_of_lt _ [] 0 (List.range (numRows t)) k (by simpa using hkN)]
    rw [getD_range_of_lt _ _ hkN, List.map_map]
    exact List.map_congr_left (fun n _ => rfl)

theorem getRcSingle_column (t : Table) (name : String) (takers : List Nat)
    (hpres : (lookupColumn t name).isSome)
    (hrect : ∀ c ∈ t, c.2.length = numRows t)
    (htak : ∀ k ∈ takers, k < numRows t) :
    getRcSingle t name takers =
      .ok (takers.map (fun k => (colGet t name).getD k 0)) := by
  have hsel := tableSelect_of_present t [name]
    (by intro n hn; rw [List.mem_singleton.mp hn]; exact hpres)
  rw [getRcSingle, hsel]
  simp only [Except.bind, bind, List.map_cons, List.map_nil]
  rw [tableTake_of_lt takers _ (by
    intro c hc k hk
    rw [List.mem_singleton.mp hc]
    rw [colGet_length hrect hpres]
    exact htak k hk)]
  rfl

/-- The loop body of method 2, evaluated for one present name. -/
theorem method2_item (t : Table) (n : String) (takers : List Nat)
    (hpres : (lookupColumn t n).isSome)
    (hrect : ∀ c ∈ t, c.2.length = numRows t)
    (htak : ∀ k ∈ takers, k < numRows t) :
    (do
      let tbl ← tableSelect t [n]
      let rows ← takeList (toPandas tbl).rows takers
      (.ok (rows.map (fun (r : List Value) => r.getD 0 0)) :
        Except PyErr (List Value)))
    = .ok (takers.map (fun k => (colGet t n).getD k 0)) := by
  have hsel := tableSelect_of_present t [n]
    (by intro x hx; rw [List.mem_singleton.mp hx]; exact hpres)
  rw [hsel]
  simp only [Except.bind, bind, List.map_cons, List.map_nil]
  have hcl : (colGet t n).length = numRows t := colGet_length hrect hpres
  have hnum1 : numRows [(n, colGet t n)] = numRows t := by
    simp [numRows, hcl]
  have hlt : ∀ k ∈ takers, k < (toPandas [(n, colGet t n)]).rows.length := by
    intro k hk
    simp only [toPandas, hnum1]
    simpa using htak k hk
  rw [takeList_of_lt [] _ takers hlt]
  simp only [Except.ok.injEq]
  rw [List.map_map]
  refine List.map_congr_left (fun k hk => ?_)
  have hkN : k < numRows t := htak k hk
  simp only [Function.comp_def, toPandas, hnum1]
  rw [getD_map_of_lt _ [] 0 (List.range (numRows t)) k (by simpa using hkN)]
  rw [getD_range_of_lt _ _ hkN]
  rfl

/-- The loop body of method 3, evaluated for one present name. -/
theorem method3_item (t : Table) (n : String) (takers : List Nat)
    (hpres : (lookupColumn t n).isSome)
    (hrect : ∀ c ∈ t, c.2.length = numRows t)
    (htak : ∀ k ∈ takers, k < numRows t) :
    (do
      let tbl ← tableSelect t [n]
      let tbl2 ← tableTake tbl takers
      (.ok ((toPandas tbl2).rows.map (fun (r : List Value) => r.getD 0 0)) :
        Except PyErr (List Value)))
    = .ok (takers.map (fun k => (colGet t n).getD k 0)) := by
  have hsel := tableSelect_of_present t [n]
    (by intro x hx; rw [List.mem_singleton.mp hx]; exact hpres)
  rw [hsel]
  simp only [Except.bind, bind, List.map_cons, List.map_nil]
  have hcl : (colGet t n).length = numRows t := colGet_length hrect hpres
  rw [tableTake_of_lt takers _ (by
    intro c hc k hk
    rw [List.mem_singleton.mp hc]
    rw [hcl]; exact htak k hk)]
  simp only [List.map_cons, List.map_nil, Except.ok.injEq]
  have hnum2 : numRows [(n, takers.map (fun k => (colGet t n).getD k 0))]
      = takers.length := by
    simp [numRows]
  rw [toPandas, hnum2]
  simp only [List.map_map]
  have hstep : ∀ i ∈ List.range takers.length,
      ((fun (r : List Value) => r.getD 0 0) ∘ (fun i =>
        [(n, takers.map (fun k => (colGet t n).getD k 0))].map
          (fun c => c.2.getD i 0))) i
      = (colGet t n).getD (takers.getD i 0) 0 := by
    intro i hi
    simp only [Function.comp_def, List.map_cons, List.map_nil,
      List.getD_cons_zero]
    exact getD_map_of_lt _ 0 0 takers i (by simpa using List.mem_range.mp hi)
  rw [List.map_congr_left hstep]
  exact range_map_getD 0 (fun k => (colGet t n).getD k 0) takers

theorem getRcMethod2_canonical (t : Table) (names : List String)
    (takers : List Nat) (_hn : names ≠ [])
    (hpres : ∀ n ∈ names, (lookupColumn t n).isSome)
    (hrect : ∀ c ∈ t, c.2.length = numRows t)
    (htak : ∀ k ∈ takers, k < numRows t) :
    getRcMethod2 t names takers = .ok (canonicalGather t names takers) := by
  rw [getRcMethod2]
  have hcols := mapM_ok_of_items
    (fun name => do
      let tbl ← tableSelect t [name]
      let rows ← takeList (toPandas tbl).rows takers
      (.ok (rows.map (fun (r : List Value) => r.getD 0 0)) :
        Except PyErr (List Value)))
    (fun n => takers.map (fun k => (colGet t n).getD k 0))
    names
    (fun n hn' => method2_item t n takers (hpres n hn') hrect htak)
  simp only [Except.bind, bind] at hcols ⊢
  rw [hcols]
  simp only [Except.ok.injEq]
  rw [canonicalGather, Frame.mk.injEq]
  exact ⟨rfl, rangeRows_eq t names takers⟩

theorem getRcMethod3_canonical (t : Table) (names : List String)
    (takers : List Nat) (_hn : names ≠ [])
    (hpres : ∀ n ∈ names, (lookupColumn t n).isSome)
    (hrect : ∀ c ∈ t, c.2.length = numRows t)
    (htak : ∀ k ∈ takers, k < numRows t) :
    getRcMethod3 t names takers = .ok (canonicalGather t names takers) := by
  rw [getRcMethod3]
  have hcols := mapM_ok_of_items
    (fun name => do
      let tbl ← tableSelect t [name]
      let tbl2 ← tableTake tbl takers
      (.ok ((toPandas tbl2).rows.map (fun (r : List Value) => r.getD 0 0)) :
        Except PyErr (List Value)))
    (fun n => takers.map (fun k => (colGet t n).getD k 0))
    names
    (fun n hn' => method3_item t n takers (hpres n hn') hrect htak)
  simp only [Except.bind, bind] at hcols ⊢
  rw [hcols]
  simp only [Except.ok.injEq]
  rw [canonicalGather, Frame.mk.injEq]
  exact ⟨rfl, rangeRows_eq t names takers⟩

/-- C3: for every table with its equal-length columns, every nonempty
list of column names present in it, and every list of in-range flat
offsets, the four multi-column gather strategies of `_get_rc_by_takers`
(full materialize + positional index; per-column loop with positional
index; per-column loop with take; batched select-then-take) return
identical frames — all equal to the canonical gather — and the
single-name fast path returns exactly the corresponding column of that
frame. -/
theorem gather_methods_equivalent (t : Table) (names : List String)
    (takers : List Nat) (hn : names ≠ [])
    (hpres : ∀ n ∈ names, (lookupColumn t n).isSome)
    (hrect : ∀ c ∈ t, c.2.length = numRows t)
    (htak : ∀ k ∈ takers, k < numRows t) :
    getRcByTakers t (.list names) takers 1 = getRcByTakers t (.list names) takers 4 ∧
    getRcByTakers t (.list names) takers 2 = getRcByTakers t (.list names) takers 4 ∧
    getRcByTakers t (.list names) takers 3 = getRcByTakers t (.list names) takers 4 ∧
    getRcByTakers t (.list names) takers 4 =
      .ok (.frame (canonicalGather t names takers)) ∧
    ∀ j, j < names.length →
      getRcByTakers t (.str (names.getD j "")) takers 4 =
        .ok (.series (frameColumn (canonicalGather t names takers) j)) := by
  have h1 := getRcMethod1_canonical t names takers hn hpres hrect htak
  have h2 := getRcMethod2_canonical t names takers hn hpres hrect htak
  have h3 := getRcMethod3_canonical t names takers hn hpres hrect htak

  have h4 := getRcMethod4_canonical t names takers hn hpres hrect htak
  refine ⟨?_, ?_, ?_, ?_, ?_⟩
  · simp [getRcByTakers, h1, h4]
  · simp [getRcByTakers, h2, h4]
  · simp [getRcByTakers, h3, h4]
  · simp [getRcByTakers, h4, Except.map]
  · intro j hj
    have hmem : names.getD j "" ∈ names := by
      rw [List.getD_eq_getElem?_getD, List.getElem?_eq_getElem hj,
        Option.getD_some]
      exact List.getElem_mem hj
    have hpj : (lookupColumn t (names.getD j "")).isSome := hpres _ hmem
    have hs := getRcSingle_column t (names.getD j "") takers hpj hrect htak
    have hcol : frameColumn (canonicalGather t names takers) j
        = takers.map (fun k => (colGet t (names.getD j "")).getD k 0) := by
      rw [frameColumn, canonicalGather, List.map_map]
      refine List.map_congr_left (fun k _ => ?_)
      simp only [Function.comp_def]
      exact getD_map_of_lt _ 0 "" names j hj
    simp only [getRcByTakers, hs, Except.map, hcol]

/-- Witness for C3 on a 2×2-column table with offsets `[2, 0, 2]`. -/
theorem gather_methods_equivalent_witness :
    (getRcByTakers [("a", [10, 11, 12, 13]), ("b", [20, 21, 22, 23])]
        (.list ["a", "b"]) [2, 0, 2] 1 =
      getRcByTakers [("a", [10, 11, 12, 13]), ("b", [20, 21, 22, 23])]
        (.list ["a", "b"]) [2, 0, 2] 4) ∧
    (getRcByTakers [("a", [10, 11, 12, 13]), ("b", [20, 21, 22, 23])]
        (.list ["a", "b"]) [2, 0, 2] 2 =
      getRcByTakers [("a", [10, 11, 12, 13]), ("b", [20, 21, 22, 23])]
        (.list ["a", "b"]) [2, 0, 2] 4) ∧
    (getRcByTakers [("a", [10, 11, 12, 13]), ("b", [20, 21, 22, 23])]
        (.list ["a", "b"]) [2, 0, 2] 3 =
      getRcByTakers [("a", [10, 11, 12, 13]), ("b", [20, 21, 22, 23])]
        (.list ["a", "b"]) [2, 0, 2] 4) ∧
    (getRcByTakers [("a", [10, 11, 12, 13]), ("b", [20, 21, 22, 23])]
        (.list ["a", "b"]) [2, 0, 2] 4 =
      .ok (.frame (canonicalGather [("a", [10, 11, 12, 13]), ("b", [20, 21, 22, 23])]
        ["a", "b"] [2, 0, 2]))) ∧
    ∀ j, j < (["a", "b"] : List String).length →
      getRcByTakers [("a", [10, 11, 12, 13]), ("b", [20, 21, 22, 23])]
          (.str ((["a", "b"] : List String).getD j "")) [2, 0, 2] 4 =
        .ok (.series (frameColumn (canonicalGather
          [("a", [10, 11, 12, 13]), ("b", [20, 21, 22, 23])]
          ["a", "b"] [2, 0, 2]) j)) :=
  gather_methods_equivalent [("a", [10, 11, 12, 13]), ("b", [20, 21, 22, 23])]
    ["a", "b"] [2, 0, 2] (by decide) (by decide) (by decide) (by decide)

/-! ### C2: round-trip identity through ingest, write, open, get_matrix -/

theorem flatten_length_of_rows (C : Nat) :
    ∀ (M : List (List Value)), (∀ row ∈ M, row.length = C) →
    M.flatten.length = M.length * C := by
  intro M
  induction M with
  | nil => intro _; simp
  | cons row rest ih =>
    intro h
    simp only [List.flatten_cons, List.length_append, List.length_cons,
      h row (by simp), ih (fun r hr => h r (by simp [hr]))]
    ring

theorem reshape2_flatten (C : Nat) :
    ∀ (M : List (List Value)), (∀ row ∈ M, row.length = C) →
    reshape2 M.length C M.flatten = .ok M := by
  intro M
  induction M with
  | nil => intro _; simp [reshape2]
  | cons row rest ih =>
    intro h
    have hrow : row.length = C := h row (by simp)
    have hrest : ∀ r ∈ rest, r.length = C := fun r hr => h r (by simp [hr])
    have ihr := ih hrest
    rw [reshape2] at ihr ⊢
    rw [if_pos (by
      simp only [List.length_cons]
      rw [flatten_length_of_rows C (row :: rest) h, List.length_cons])]
    rw [if_pos (flatten_length_of_rows C rest hrest)] at ihr
    have ihr' := Except.ok.inj ihr
    simp only [Except.ok.injEq]
    rw [List.length_cons, List.range_succ_eq_map, List.map_cons]
    simp only [List.cons.injEq]
    constructor
    · simp only [Nat.zero_mul, List.drop_zero, List.flatten_cons]
      rw [← hrow, List.take_left]
    · rw [List.map_map]
      calc (List.range rest.length).map
            ((fun i => ((row :: rest).flatten.drop (i * C)).take C) ∘ Nat.succ)
          = (List.range rest.length).map
              (fun i => (rest.flatten.drop (i * C)).take C) := by
            refine List.map_congr_left (fun i _ => ?_)
            simp only [Function.comp_def, List.flatten_cons]
            have hidx : Nat.succ i * C = row.length + i * C := by
              rw [hrow, Nat.succ_mul, Nat.add_comm]
            rw [hidx, List.drop_append]
        _ = rest := ihr'

theorem flatten_map_singleton {α β : Type} (g : α → β) :
    ∀ (l : List α), (l.map (fun x => [g x])).flatten = l.map g := by
  intro l
  induction l with
  | nil => rfl
  | cons x xs ih => simp [ih]

/-- The flat buffer `to_pandas().to_numpy()` of a one-column table is
the column itself. -/
theorem toPandas_single_flatten (name : String) (col : List Value) :
    (toPandas [(name, col)]).rows.flatten = col := by
  rw [toPandas]
  simp only [numRows, List.headD_cons, List.map_cons, List.map_nil]
  rw [flatten_map_singleton (fun i => col.getD i 0) (List.range col.length)]
  have h := range_map_getD 0 (fun v : Value => v) col
  simpa using h

/-- C2: ingesting a 2-d source matrix, writing it with either backend,
reopening the file and calling `get_matrix(name)` returns the original
matrix element-wise after the reshape to its shape. -/
theorem roundtrip_get_matrix (mats : List (String × List (List Value)))
    (name : String) (M : List (List Value)) (R C : Nat)
    (hlook : lookupColumn (ingestTable mats) name = some (flattenMatrix M))
    (hR : M.length = R) (hC : ∀ row ∈ M, row.length = C) :
    getMatrixF (featherGetArrowTable (featherWriteRead (ingestTable mats)))
      name R C = .ok M ∧
    getMatrixF (parquetGetArrowTable (parquetWriteRead (ingestTable mats)))
      name R C = .ok M := by
  have hsel : tableSelect (ingestTable mats) [name]
      = .ok [(name, flattenMatrix M)] := by
    rw [tableSelect, hlook]
    rfl
  have hcore : ∀ (get : Option (List String) → Except PyErr Table),
      get (some [name]) = .ok [(name, flattenMatrix M)] →
      getMatrixF get name R C = .ok M := by
    intro get hget
    rw [getMatrixF, hget]
    simp only [Except.bind, bind]
    rw [toPandas_single_flatten name (flattenMatrix M)]
    rw [flattenMatrix, ← hR]
    exact reshape2_flatten C M hC
  exact ⟨hcore _ hsel, hcore _ hsel⟩

/-- Witness for C2 on a 2×2 matrix. -/
theorem roundtrip_get_matrix_witness :
    getMatrixF (featherGetArrowTable (featherWriteRead
        (ingestTable [("m", [[1, 2], [3, 4]])]))) "m" 2 2
      = .ok [[1, 2], [3, 4]] ∧
    getMatrixF (parquetGetArrowTable (parquetWriteRead
        (ingestTable [("m", [[1, 2], [3, 4]])]))) "m" 2 2
      = .ok [[1, 2], [3, 4]] :=
  roundtrip_get_matrix [("m", [[1, 2], [3, 4]])] "m" [[1, 2], [3, 4]] 2 2
    (by decide) (by decide) (by decide)

/-! ### C10: slice bound normalization -/

theorem mem_npArange_lt (stop : Nat) :
    ∀ (k start step : Nat), stop - start ≤ k →
    ∀ x ∈ npArange start stop step, x < stop := by
  intro k
  induction k with
  | zero =>
    intro start step h x hx
    rw [npArange] at hx
    rw [dif_neg (by omega : ¬(0 < step ∧ start < stop))] at hx
    exact absurd hx (List.not_mem_nil x)
  | succ k ih =>
    intro start step h x hx
    rw [npArange] at hx
    by_cases hc : 0 < step ∧ start < stop
    · rw [dif_pos hc] at hx
      rcases List.mem_cons.mp hx with h1 | h2
      · exact h1 ▸ hc.2
      · exact ih (start + step) step (by omega) x h2
    · rw [dif_neg hc] at hx
      exact absurd hx (List.not_mem_nil x)

theorem mem_sliceToRange_lt (s : PySlice) (size : Nat) :
    ∀ x ∈ sliceToRange s size, x < size := by
  intro x hx
  obtain ⟨st, stop, sp⟩ := s
  cases stop with
  | none =>
    simp only [sliceToRange, pyCap] at hx
    exact mem_npArange_lt size _ (pyOr st 0) (pyOr sp 1) le_rfl x hx
  | some a =>
    simp only [sliceToRange, pyCap] at hx
    exact lt_of_lt_of_le
      (mem_npArange_lt (min a size) _ (pyOr st 0) (pyOr sp 1) le_rfl x hx)
      (Nat.min_le_right a size)

/-- C10: in `__getitem__`'s dimension slices, a `None` stop or a stop
exceeding the dimension size is clamped to the size, a `None` start is
treated as `0`, a `None` or zero step is treated as `1`, and no
realized slice offset ever reaches the dimension bound. -/
theorem slice_bound_normalization :
    (∀ (st sp : Option Nat) (size : Nat),
      sliceToRange ⟨st, none, sp⟩ size = sliceToRange ⟨st, some size, sp⟩ size) ∧
    (∀ (st sp : Option Nat) (v size : Nat), size ≤ v →
      sliceToRange ⟨st, some v, sp⟩ size = sliceToRange ⟨st, some size, sp⟩ size) ∧
    (∀ (stop : Option Nat) (sp : Option Nat) (size : Nat),
      sliceToRange ⟨none, stop, sp⟩ size = sliceToRange ⟨some 0, stop, sp⟩ size) ∧
    (∀ (st stop : Option Nat) (size : Nat),
      sliceToRange ⟨st, stop, none⟩ size = sliceToRange ⟨st, stop, some 1⟩ size ∧
      sliceToRange ⟨st, stop, some 0⟩ size = sliceToRange ⟨st, stop, some 1⟩ size) ∧
    (∀ (s : PySlice) (size : Nat), ∀ x ∈ sliceToRange s size, x < size) := by
  refine ⟨?_, ?_, ?_, ?_, mem_sliceToRange_lt⟩
  · intro st sp size
    simp [sliceToRange, pyCap]
  · intro st sp v size h
    simp [sliceToRange, pyCap, Nat.min_eq_right h, Nat.min_self]
  · intro stop sp size
    rfl
  · intro st stop size
    exact ⟨rfl, rfl⟩

/-- Witness for C10: clamping an oversized stop and the offset bound at
concrete slices. -/
theorem slice_bound_normalization_witness :
    (3 : Nat) ≤ 10 ∧
    sliceToRange ⟨some 0, some 10, some 1⟩ 3 =
      sliceToRange ⟨some 0, some 3, some 1⟩ 3 ∧
    (∀ x ∈ sliceToRange ⟨some 1, none, some 2⟩ 5, x < 5) :=
  ⟨by decide,
    slice_bound_normalization.2.1 (some 0) (some 1) 10 3 (by decide),
    fun x hx => slice_bound_normalization.2.2.2.2 ⟨some 1, none, some 2⟩ 5 x hx⟩

/-! ### C7 and C8: the slice materializer -/

theorem takeArray_fst (s1 s2 : PySlice) (shape0 shape1 : Nat) :
    (takeArray s1 s2 shape0 shape1).1 =
      ((sliceToRange s1 shape0).map (fun a =>
        (sliceToRange s2 shape1).map (fun b => a * shape1 + b))).flatten := rfl

theorem takeArray_snd (s1 s2 : PySlice) (shape0 shape1 : Nat) :
    (takeArray s1 s2 shape0 shape1).2 =
      ((sliceToRange s1 shape0).length, (sliceToRange s2 shape1).length) := rfl

theorem takeArray_mem_lt (s1 s2 : PySlice) (shape0 shape1 : Nat) :
    ∀ k ∈ (takeArray s1 s2 shape0 shape1).1, k < shape0 * shape1 := by
  intro k hk
  rw [takeArray_fst] at hk
  obtain ⟨l, hl, hkl⟩ := List.mem_flatten.mp hk
  obtain ⟨a, ha, rfl⟩ := List.mem_map.mp hl
  obtain ⟨b, hb, rfl⟩ := List.mem_map.mp hkl
  have ha' : a < shape0 := mem_sliceToRange_lt s1 shape0 a ha
  have hb' : b < shape1 := mem_sliceToRange_lt s2 shape1 b hb
  calc a * shape1 + b < a * shape1 + shape1 := by omega
    _ = (a + 1) * shape1 := by ring
    _ ≤ shape0 * shape1 := Nat.mul_le_mul_right shape1 (by omega)

theorem getRcByTakers_list_four (t : Table) (l : List String)
    (takers : List Nat) :
    getRcByTakers t (.list l) takers 4 = (getRcMethod4 t l takers).map .frame :=
  rfl

/-- The dense reshape of a single-name gather over the take-array grid
is the value grid itself. -/
theorem reshape2_grid (t : Table) (n : String) (s1 s2 : PySlice)
    (shape0 shape1 : Nat) :
    reshape2 (sliceToRange s1 shape0).length (sliceToRange s2 shape1).length
      ((canonicalGather t [n] (takeArray s1 s2 shape0 shape1).1).rows.flatten)
    = .ok ((sliceToRange s1 shape0).map (fun a =>
        (sliceToRange s2 shape1).map (fun b =>
          (colGet t n).getD (a * shape1 + b) 0))) := by
  have hrows : (canonicalGather t [n] (takeArray s1 s2 shape0 shape1).1).rows
      = (takeArray s1 s2 shape0 shape1).1.map
          (fun k => [(colGet t n).getD k 0]) := by
    rw [canonicalGather]
    simp
  have hflat : (canonicalGather t [n]
      (takeArray s1 s2 shape0 shape1).1).rows.flatten
      = ((sliceToRange s1 shape0).map (fun a =>
          (sliceToRange s2 shape1).map (fun b =>
            (colGet t n).getD (a * shape1 + b) 0))).flatten := by
    rw [hrows, flatten_map_singleton (fun k => (colGet t n).getD k 0),
      takeArray_fst, List.map_flatten, List.map_map]
    refine congrArg List.flatten (List.map_congr_left (fun a _ => ?_))
    simp [List.map_map, Function.comp_def]
  rw [hflat]
  have hblock : ∀ row ∈ (sliceToRange s1 shape0).map (fun a =>
      (sliceToRange s2 shape1).map (fun b =>
        (colGet t n).getD (a * shape1 + b) 0)),
      row.length = (sliceToRange s2 shape1).length := by
    intro row hrow
    obtain ⟨a, _, rfl⟩ := List.mem_map.mp hrow
    exact List.length_map _ _
  have hlen : (sliceToRange s1 shape0).length
      = ((sliceToRange s1 shape0).map (fun a =>
          (sliceToRange s2 shape1).map (fun b =>
            (colGet t n).getD (a * shape1 + b) 0))).length :=
    (List.length_map _ _).symm
  rw [hlen]
  exact reshape2_flatten (sliceToRange s2 shape1).length _ hblock

/-- C7: for a 2-d matrix, `__getitem__` with exactly one requested name
returns a dense numeric grid of shape `(len(range0), len(range1))`
holding the gathered values; with multiple requested names it returns a
long-format frame with the two broadcast range grids, each flattened
row-major, as the two row-label levels and one column per requested
name; and an integer dimension selector behaves as the length-1 slice
at that position. -/
theorem getitem_output_policy (t : Table) (shape0 shape1 : Nat)
    (hrect : ∀ c ∈ t, c.2.length = numRows t)
    (hnum : numRows t = shape0 * shape1) :
    (∀ (n : String) (s1 s2 : PySlice), (lookupColumn t n).isSome →
      getitem t shape0 shape1 (.list [n]) (.slice s1) (.slice s2) =
        .ok (.dense ((sliceToRange s1 shape0).map (fun a =>
          (sliceToRange s2 shape1).map (fun b =>
            (colGet t n).getD (a * shape1 + b) 0)))) ∧
      getitem t shape0 shape1 (.str n) (.slice s1) (.slice s2) =
        getitem t shape0 shape1 (.list [n]) (.slice s1) (.slice s2)) ∧
    (∀ (names : List String) (s1 s2 : PySlice), 1 < names.length →
      (∀ n ∈ names, (lookupColumn t n).isSome) →
      getitem t shape0 shape1 (.list names) (.slice s1) (.slice s2) =
        .ok (.long
          (((sliceToRange s1 shape0).map (fun a =>
            (sliceToRange s2 shape1).map (fun _ => a))).flatten)
          (((sliceToRange s1 shape0).map (fun _ =>
            sliceToRange s2 shape1)).flatten)
          (canonicalGather t names (takeArray s1 s2 shape0 shape1).1))) ∧
    (∀ (ns : NamesSel) (i : Nat) (d2 : DimSel),
      getitem t shape0 shape1 ns (.int i) d2 =
        getitem t shape0 shape1 ns (.slice ⟨some i, some (i + 1), none⟩) d2) ∧
    (∀ (ns : NamesSel) (d1 : DimSel) (i : Nat),
      getitem t shape0 shape1 ns d1 (.int i) =
        getitem t shape0 shape1 ns d1 (.slice ⟨some i, some (i + 1), none⟩)) := by
  refine ⟨?_, ?_, fun ns i d2 => rfl, fun ns d1 i => rfl⟩
  · intro n s1 s2 hp
    have htak : ∀ k ∈ (takeArray s1 s2 shape0 shape1).1, k < numRows t := by
      intro k hk
      rw [hnum]
      exact takeArray_mem_lt s1 s2 shape0 shape1 k hk
    have hcanon := getRcMethod4_canonical t [n]
      (takeArray s1 s2 shape0 shape1).1 (by simp)
      (by intro x hx; rw [List.mem_singleton.mp hx]; exact hp) hrect htak
    constructor
    · simp only [getitem, Except.bind, bind, getRcByTakers_list_four, hcanon,
        Except.map]
      simp only [List.length_cons, List.length_nil, gt_iff_lt,
        lt_self_iff_false, if_false, takeArray_snd]
      rw [reshape2_grid t n s1 s2 shape0 shape1]
    · rfl
  · intro names s1 s2 hlen hpres
    have htak : ∀ k ∈ (takeArray s1 s2 shape0 shape1).1, k < numRows t := by
      intro k hk
      rw [hnum]
      exact takeArray_mem_lt s1 s2 shape0 shape1 k hk
    have hcanon := getRcMethod4_canonical t names
      (takeArray s1 s2 shape0 shape1).1 (by intro h; subst h; simp at hlen)
      hpres hrect htak
    simp only [getitem, Except.bind, bind, getRcByTakers_list_four, hcanon,
      Except.map]
    rw [if_pos hlen]

/-- Witness for C7 on a 2-column table over a `(2, 2)` matrix. -/
theorem getitem_output_policy_witness :
    (getitem [("a", [10, 11, 12, 13]), ("b", [20, 21, 22, 23])] 2 2
        (.list ["a"]) (.slice ⟨none, none, none⟩) (.slice ⟨none, none, none⟩) =
      .ok (.dense ((sliceToRange ⟨none, none, none⟩ 2).map (fun a =>
        (sliceToRange ⟨none, none, none⟩ 2).map (fun b =>
          (colGet [("a", [10, 11, 12, 13]), ("b", [20, 21, 22, 23])] "a").getD
            (a * 2 + b) 0))))) ∧
    (getitem [("a", [10, 11, 12, 13]), ("b", [20, 21, 22, 23])] 2 2
        (.list ["a", "b"]) (.slice ⟨none, none, none⟩)
        (.slice ⟨none, none, none⟩) =
      .ok (.long
        (((sliceToRange ⟨none, none, none⟩ 2).map (fun a =>
          (sliceToRange ⟨none, none, none⟩ 2).map (fun _ => a))).flatten)
        (((sliceToRange ⟨none, none, none⟩ 2).map (fun _ =>
          sliceToRange ⟨none, none, none⟩ 2)).flatten)
        (canonicalGather [("a", [10, 11, 12, 13]), ("b", [20, 21, 22, 23])]
          ["a", "b"]
          (takeArray ⟨none, none, none⟩ ⟨none, none, none⟩ 2 2).1))) :=
  ⟨((getitem_output_policy [("a", [10, 11, 12, 13]), ("b", [20, 21, 22, 23])]
      2 2 (by decide) (by decide)).1 "a" ⟨none, none, none⟩ ⟨none, none, none⟩
      (by decide)).1,
    (getitem_output_policy [("a", [10, 11, 12, 13]), ("b", [20, 21, 22, 23])]
      2 2 (by decide) (by decide)).2.1 ["a", "b"] ⟨none, none, none⟩
      ⟨none, none, none⟩ (by decide) (by decide)⟩

/-- C8: passing an unbounded slice placeholder as the names selector
does not return all matrices — `len(names)` is evaluated on the slice
object before the `list_matrices()` branch, so the call raises
`TypeError` instead. -/
theorem getitem_slice_names_typeerror (t : Table) (shape0 shape1 : Nat)
    (sl1 sl2 sl3 : Option Nat) (d1 d2 : DimSel) :
    getitem t shape0 shape1 (.slice sl1 sl2 sl3) d1 d2 =
      .error .typeError := rfl

/-! ### C6: rendering and parsing the SHAPE metadata -/

theorem digitChar_isDigit : ∀ d < 10, (Char.ofNat (d + 48)).isDigit = true := by
  decide

theorem digitChar_toNat : ∀ d < 10, (Char.ofNat (d + 48)).toNat - 48 = d := by
  decide

theorem renderNatAux_zero : ∀ (fuel : Nat), renderNatAux fuel 0 = [] := by
  intro fuel
  cases fuel <;> rfl

theorem renderNatAux_eq_digits : ∀ (fuel n : Nat), 0 < n → n ≤ fuel →
    renderNatAux fuel n =
      ((Nat.digits 10 n).reverse).map (fun d => Char.ofNat (d + 48)) := by
  intro fuel
  induction fuel with
  | zero => intro n h1 h2; omega
  | succ fuel ih =>
    intro n h1 h2
    cases n with
    | zero => omega
    | succ n =>
      rw [renderNatAux,
        Nat.digits_def' (by norm_num : 1 < 10) (Nat.succ_pos n),
        List.reverse_cons, List.map_append]
      by_cases hq : (n + 1) / 10 = 0
      · rw [hq, renderNatAux_zero]
        simp
      · have hlt : (n + 1) / 10 ≤ fuel := by
          have := Nat.div_lt_self (Nat.succ_pos n) (by norm_num : 1 < 10)
          omega
        rw [ih ((n + 1) / 10) (Nat.pos_of_ne_zero hq) hlt]
        simp

theorem renderNat_eq_digits (n : Nat) (h : n ≠ 0) :
    renderNat n =
      ((Nat.digits 10 n).reverse).map (fun d => Char.ofNat (d + 48)) := by
  rw [renderNat, if_neg h]
  exact renderNatAux_eq_digits (n + 1) n (Nat.pos_of_ne_zero h) (by omega)

theorem renderNat_all_digits (n : Nat) :
    ∀ c ∈ renderNat n, c.isDigit = true := by
  by_cases h : n = 0
  · subst h
    intro c hc
    simp [renderNat] at hc
    subst hc
    decide
  · rw [renderNat_eq_digits n h]
    intro c hc
    obtain ⟨d, hd, rfl⟩ := List.mem_map.mp hc
    exact digitChar_isDigit d
      (Nat.digits_lt_base (by norm_num) (List.mem_reverse.mp hd))

theorem renderNat_ne_nil (n : Nat) : renderNat n ≠ [] := by
  by_cases h : n = 0
  · subst h; simp [renderNat]
  · rw [renderNat_eq_digits n h]
    simp [h, Nat.digits_ne_nil_iff_ne_zero]

theorem renderNat_length_pos (n : Nat) : 0 < (renderNat n).length := by
  cases hr : renderNat n with
  | nil => exact absurd hr (renderNat_ne_nil n)
  | cons c cs => simp

theorem renderNat_value (n : Nat) :
    Nat.ofDigits 10 (((renderNat n).map (fun c => c.toNat - 48)).reverse)
      = n := by
  by_cases h : n = 0
  · subst h; decide
  · rw [renderNat_eq_digits n h, List.map_map]
    have hid : ∀ d ∈ (Nat.digits 10 n).reverse,
        ((fun c => c.toNat - 48) ∘ (fun d => Char.ofNat (d + 48))) d = id d :=
      fun d hd => digitChar_toNat d
        (Nat.digits_lt_base (by norm_num) (List.mem_reverse.mp hd))
    rw [List.map_congr_left hid, List.map_id, List.reverse_reverse]
    exact Nat.ofDigits_digits 10 n

theorem takeWhile_dropWhile_append (p : Char → Bool) :
    ∀ (l r : List Char), (∀ c ∈ l, p c = true) →
    (∀ c, r.head? = some c → p c = false) →
    (l ++ r).takeWhile p = l ∧ (l ++ r).dropWhile p = r := by
  intro l
  induction l with
  | nil =>
    intro r _ h2
    constructor
    · cases r with
      | nil => rfl
      | cons c cr => simp [List.takeWhile_cons, h2 c rfl]
    · cases r with
      | nil => rfl
      | cons c cr => simp [List.dropWhile_cons, h2 c rfl]
  | cons x xs ih =>
    intro r h1 h2
    have hx : p x = true := h1 x (by simp)
    obtain ⟨ht, hd⟩ := ih r (fun c hc => h1 c (by simp [hc])) h2
    constructor
    · simp [List.takeWhile_cons, hx, ht]
    · simp [List.dropWhile_cons, hx, hd]

theorem parseNatChars_render (n : Nat) (rest : List Char)
    (hrest : ∀ c, rest.head? = some c → c.isDigit = false) :
    parseNatChars (renderNat n ++ rest) = some (n, rest) := by
  obtain ⟨ht, hd⟩ := takeWhile_dropWhile_append Char.isDigit (renderNat n)
    rest (renderNat_all_digits n) hrest
  rw [parseNatChars, ht, hd]
  rw [if_neg (by simp [renderNat_ne_nil n])]
  rw [renderNat_value n]

theorem parseItemsFuel_single (d : Nat) :
    ∀ (fuel : Nat), 0 < fuel →
    parseItemsFuel fuel (renderNat d ++ [',', ')']) = some [d] := by
  intro fuel hf
  cases fuel with
  | zero => omega
  | succ fuel =>
    simp only [parseItemsFuel]
    rw [parseNatChars_render d [',', ')'] (by
      intro c hc
      rw [show c = ',' from by simpa using hc.symm]
      decide)]
    rfl

theorem parseItemsFuel_items :
    ∀ (shape : List Nat), shape ≠ [] → ∀ (fuel : Nat),
    (renderTupleItems shape ++ [')']).length ≤ fuel →
    parseItemsFuel fuel (renderTupleItems shape ++ [')']) = some shape := by
  intro shape
  induction shape with
  | nil => intro h; exact absurd rfl h
  | cons d rest ih =>
    intro _ fuel hf
    have hrlen := renderNat_length_pos d
    cases rest with
    | nil =>
      cases fuel with
      | zero =>
        exfalso
        simp only [renderTupleItems, List.length_append] at hf
        omega
      | succ fuel =>
        show parseItemsFuel (fuel + 1) (renderNat d ++ [')']) = some [d]
        simp only [parseItemsFuel]
        rw [parseNatChars_render d [')'] (by
          intro c hc
          rw [show c = ')' from by simpa using hc.symm]
          decide)]
        rfl
    | cons e rest2 =>
      have happ : renderTupleItems (d :: e :: rest2) ++ [')']
          = renderNat d ++
            (',' :: ' ' :: (renderTupleItems (e :: rest2) ++ [')'])) := by
        simp [renderTupleItems]
      rw [happ] at hf ⊢
      cases fuel with
      | zero =>
        exfalso
        simp only [List.length_append, List.length_cons] at hf
        omega
      | succ fuel =>
        simp only [parseItemsFuel]
        rw [parseNatChars_render d
          (',' :: ' ' :: (renderTupleItems (e :: rest2) ++ [')'])) (by
          intro c hc
          rw [show c = ',' from by simpa using hc.symm]
          decide)]
        have hfl : (renderTupleItems (e :: rest2) ++ [')']).length ≤ fuel := by
          simp only [List.length_append, List.length_cons,
            List.length_nil] at hf ⊢
          omega
        show (parseItemsFuel fuel
            (renderTupleItems (e :: rest2) ++ [')'])).map
              (fun l => d :: l) = some (d :: e :: rest2)
        rw [ih (by simp) fuel hfl]
        rfl

/-- `ast.literal_eval(str(shape))` recovers the shape tuple. -/
theorem literalEval_pyStrTuple (shape : List Nat) :
    literalEvalTuple (pyStrTuple shape) = some shape := by
  cases shape with
  | nil => rfl
  | cons d rest =>
    cases rest with
    | nil =>
      show literalEvalTuple ('(' :: (renderNat d ++ [',', ')'])) = some [d]
      rw [literalEvalTuple]
      rw [if_neg (by
        intro h
        have := congrArg List.length h
        simp only [List.length_append, List.length_cons, List.length_nil] at this
        omega)]
      exact parseItemsFuel_single d _ (by
        simp only [List.length_append, List.length_cons, List.length_nil]
        omega)
    | cons e rest2 =>
      show literalEvalTuple
        ('(' :: (renderTupleItems (d :: e :: rest2) ++ [')'])) = some _
      rw [literalEvalTuple]
      have hrlen := renderNat_length_pos d
      rw [if_neg (by
        intro h
        have := congrArg List.length h
        simp only [List.length_append, List.length_cons, List.length_nil,
          renderTupleItems] at this
        omega)]
      exact parseItemsFuel_items (d :: e :: rest2) (by simp) _ le_rfl

/-! ### C6: the persisted metadata layout, and C5: missing SHAPE -/

theorem metaGet_metaSet_self (k : String) (v : List Char) :
    ∀ (m : Metadata), metaGet (metaSet m k v) k = some v := by
  intro m
  induction m with
  | nil => simp [metaSet, metaGet]
  | cons kv rest ih =>
    by_cases h : kv.1 = k
    · simp [metaSet, metaGet, h]
    · simp [metaSet, metaGet, h, ih]

theorem metaGet_metaSet_ne (k q : String) (v : List Char) (hqk : q ≠ k) :
    ∀ (m : Metadata), metaGet (metaSet m k v) q = metaGet m q := by
  intro m
  induction m with
  | nil => simp [metaSet, metaGet, Ne.symm hqk]
  | cons kv rest ih =>
    by_cases h : kv.1 = k
    · simp [metaSet, metaGet, h, Ne.symm hqk]
    · by_cases h2 : kv.1 = q
      · simp [metaSet, metaGet, h, h2, hqk]
      · simp [metaSet, metaGet, h, h2, ih]

/-- C6: the ingest path sets exactly the two format metadata entries on
the schema — `OMX_VERSION` with the fixed tag `b'0.3.0a'` and `SHAPE`
with `str(shape)`, parseable back by `ast.literal_eval`, every other
key untouched — and each backend's open recovers the shape and version
from them. -/
theorem metadata_layout (m0 : Metadata) (shape : List Nat) :
    metaGet (ingestMetadata m0 shape) "OMX_VERSION" = some omxVersionTag ∧
    metaGet (ingestMetadata m0 shape) "SHAPE" = some (pyStrTuple shape) ∧
    literalEvalTuple (pyStrTuple shape) = some shape ∧
    (∀ k, k ≠ "OMX_VERSION" → k ≠ "SHAPE" →
      metaGet (ingestMetadata m0 shape) k = metaGet m0 k) ∧
    featherOpenMeta (ingestMetadata m0 shape) = .ok (shape, omxVersionTag) ∧
    (∀ (arg : Option (List Nat)) (nrows : Nat), ∃ w,
      parquetOpenMeta arg (ingestMetadata m0 shape) nrows =
        .ok (shape, omxVersionTag, w)) := by
  have hv : metaGet (ingestMetadata m0 shape) "OMX_VERSION"
      = some omxVersionTag := by
    rw [ingestMetadata,
      metaGet_metaSet_ne "SHAPE" "OMX_VERSION" _ (by decide),
      metaGet_metaSet_self]
  have hs : metaGet (ingestMetadata m0 shape) "SHAPE"
      = some (pyStrTuple shape) := by
    rw [ingestMetadata, metaGet_metaSet_self]
  have hp := literalEval_pyStrTuple shape
  refine ⟨hv, hs, hp, ?_, ?_, ?_⟩
  · intro k hk1 hk2
    rw [ingestMetadata, metaGet_metaSet_ne "SHAPE" k _ hk2,
      metaGet_metaSet_ne "OMX_VERSION" k _ hk1]
  · rw [featherOpenMeta, hv, hs]
    simp [Except.bind, bind, hp]
  · intro arg nrows
    refine ⟨decide (shape.prod ≠ nrows), ?_⟩
    rw [parquetOpenMeta, hv, hs]
    simp [Except.bind, bind, hp]

/-- Witness for C6 over a metadata dict already holding a `pandas`
entry, at shape `(25, 25)`. -/
theorem metadata_layout_witness :
    metaGet (ingestMetadata [("pandas", ['x'])] [25, 25]) "SHAPE"
      = some (pyStrTuple [25, 25]) ∧
    literalEvalTuple (pyStrTuple [25, 25]) = some [25, 25] ∧
    metaGet (ingestMetadata [("pandas", ['x'])] [25, 25]) "pandas"
      = metaGet [("pandas", ['x'])] "pandas" ∧
    featherOpenMeta (ingestMetadata [("pandas", ['x'])] [25, 25])
      = .ok ([25, 25], omxVersionTag) :=
  ⟨(metadata_layout [("pandas", ['x'])] [25, 25]).2.1,
    (metadata_layout [("pandas", ['x'])] [25, 25]).2.2.1,
    (metadata_layout [("pandas", ['x'])] [25, 25]).2.2.2.1 "pandas"
      (by decide) (by decide),
    (metadata_layout [("pandas", ['x'])] [25, 25]).2.2.2.2.1⟩

/-- C5 counterexample: opening a persisted table whose schema metadata
lacks the `SHAPE` entry fails with `KeyError` from the dict lookup —
not with `MissingShapeError` as the claim states — for both backends,
even when a shape is independently supplied to `ParquetMatrix` (the
parameter is ignored). -/
theorem missing_shape_cex :
    featherOpenMeta [("OMX_VERSION", omxVersionTag)]
      = Except.error PyErr.keyError ∧
    featherOpenMeta [("OMX_VERSION", omxVersionTag)]
      ≠ Except.error PyErr.missingShapeError ∧
    parquetOpenMeta (some [25, 25]) [("OMX_VERSION", omxVersionTag)] 625
      = Except.error PyErr.keyError ∧
    parquetOpenMeta (some [25, 25]) [("OMX_VERSION", omxVersionTag)] 625
      ≠ Except.error PyErr.missingShapeError := by
  refine ⟨rfl, ?_, rfl, ?_⟩
  · intro h
    rw [(rfl : featherOpenMeta [("OMX_VERSION", omxVersionTag)]
      = Except.error PyErr.keyError)] at h
    exact PyErr.noConfusion (Except.error.inj h)
  · intro h
    rw [(rfl : parquetOpenMeta (some [25, 25])
      [("OMX_VERSION", omxVersionTag)] 625
      = Except.error PyErr.keyError)] at h
    exact PyErr.noConfusion (Except.error.inj h)

/-- C5 amended: opening a persisted table whose schema metadata lacks
the `SHAPE` entry fails — with `KeyError` from the metadata lookup, not
`MissingShapeError` — for both backends, regardless of any
independently supplied shape argument. -/
theorem open_missing_shape_key_error (m : Metadata)
    (h : metaGet m "SHAPE" = none) :
    featherOpenMeta m = Except.error PyErr.keyError ∧
    ∀ (arg : Option (List Nat)) (nrows : Nat),
      parquetOpenMeta arg m nrows = Except.error PyErr.keyError := by
  constructor
  · cases hv : metaGet m "OMX_VERSION" with
    | none => rw [featherOpenMeta, hv]; rfl
    | some v => rw [featherOpenMeta, hv, h]; rfl
  · intro arg nrows
    rw [parquetOpenMeta, h]
    rfl

/-- Witness for C5 amended: empty schema metadata. -/
theorem open_missing_shape_key_error_witness :
    featherOpenMeta [] = Except.error PyErr.keyError ∧
    ∀ (arg : Option (List Nat)) (nrows : Nat),
      parquetOpenMeta arg [] nrows = Except.error PyErr.keyError :=
  open_missing_shape_key_error [] (by rfl)

end ArrowMatrix
